import Mathlib

/-!
Verification of the leben-chess engine core.

This file is a shallow embedding, in Lean 4, of the Rust chess library
leben-chess: the board and coordinate primitives (src/board), the move
generation, legality and application engine (src/moves.rs with its
submodules src/moves/util.rs and src/moves/move_patterns.rs), the FEN
piece-placement parser (src/board/mod.rs) and the game state machine
(src/chess.rs).  Machine integers are embedded as Nat (with explicit
mod 2^64 where the source relies on 64-bit wrap/rotate semantics),
in-place board mutation is embedded as explicit state passing (every
function that takes a mutable board in the source returns the final
board here), and fallible operations return Option or Except.
-/

namespace LebenChess

/-- One of the standard chess piece types (src/board/piece.rs). -/
inductive PieceType where
  | pawn | knight | bishop | rook | queen | king
deriving DecidableEq, Repr

/-- One of the piece colors (src/board/piece.rs). -/
inductive PlayerColor where
  | white | black
deriving DecidableEq, Repr

/-- PlayerColor::other_player. -/
def PlayerColor.other_player : PlayerColor → PlayerColor
  | .white => .black
  | .black => .white

/-- A piece on the chess board (src/board/piece.rs). -/
structure Piece where
  piece_type : PieceType
  player : PlayerColor
deriving DecidableEq, Repr

/-- Piece::from_char: the FEN letter of a piece (src/board/piece.rs). -/
def Piece.from_char (ch : Char) : Option Piece :=
  if ch = 'P' then some ⟨.pawn, .white⟩
  else if ch = 'N' then some ⟨.knight, .white⟩
  else if ch = 'B' then some ⟨.bishop, .white⟩
  else if ch = 'R' then some ⟨.rook, .white⟩
  else if ch = 'Q' then some ⟨.queen, .white⟩
  else if ch = 'K' then some ⟨.king, .white⟩
  else if ch = 'p' then some ⟨.pawn, .black⟩
  else if ch = 'n' then some ⟨.knight, .black⟩
  else if ch = 'b' then some ⟨.bishop, .black⟩
  else if ch = 'r' then some ⟨.rook, .black⟩
  else if ch = 'q' then some ⟨.queen, .black⟩
  else if ch = 'k' then some ⟨.king, .black⟩
  else none

/-- A square coordinate: a pair of 3-bit file/rank values
(src/board/board_pos.rs; the U3 bounded integer of src/util.rs is
embedded as Fin 8). -/
structure BoardPosition where
  file : Fin 8
  rank : Fin 8
deriving DecidableEq, Repr

/-- BoardPosition::add: add a signed offset, returning none when the
result leaves the board on either axis (src/board/board_pos.rs). -/
def BoardPosition.add (p : BoardPosition) (offset : Int × Int) : Option BoardPosition :=
  let file : Int := (p.file : Nat) + offset.1
  let rank : Int := (p.rank : Nat) + offset.2
  if h : 0 ≤ file ∧ file < 8 ∧ 0 ≤ rank ∧ rank < 8 then
    some ⟨⟨file.toNat, by omega⟩, ⟨rank.toNat, by omega⟩⟩
  else
    none

/-- U6::from(BoardPosition): the 6-bit square index (file << 3) | rank
(src/util.rs). -/
def BoardPosition.toU6 (p : BoardPosition) : Nat :=
  ((p.file : Nat) <<< 3) ||| (p.rank : Nat)

/-- The capture mode of a move-pattern line (src/board/board_pos.rs). -/
inductive CaptureType where
  | normal | moveOnly | captureOnly
deriving DecidableEq, Repr

/-- A candidate target square produced by the line walk
(src/board/board_pos.rs). -/
structure TargetSquare where
  position : BoardPosition
  capture_type : CaptureType
deriving DecidableEq, Repr

/-- A move-pattern line: offset vector, maximum length and capture mode
(src/board/board_pos.rs). -/
structure BoardLine where
  offset : Int × Int
  max_length : Nat
  capture_type : CaptureType

/-- The in-board target squares of one line, in walk order.  This is the
sequence the BoardLineIterator of src/board/board_pos.rs yields for one
line before moving to the next: squares origin + offset*k for k = 1.. up
to max_length, cut off at the first square that falls outside the board
(the iterator abandons the rest of the line in that case). -/
def lineSquaresAux (origin : BoardPosition) (line : BoardLine) : Nat → Nat → List TargetSquare
  | 0, _ => []
  | n + 1, k =>
    match origin.add (line.offset.1 * (k : Int), line.offset.2 * (k : Int)) with
    | none => []
    | some pos => ⟨pos, line.capture_type⟩ :: lineSquaresAux origin line n (k + 1)

/-- All in-board targets of a line, starting at step 1. -/
def lineSquares (origin : BoardPosition) (line : BoardLine) : List TargetSquare :=
  lineSquaresAux origin line line.max_length 1

/-- The 8×8 board: an assignment of an optional piece to every square
(src/board/mod.rs stores [[Option<Piece>; 8]; 8] indexed by file then
rank; embedded as a function from file and rank). -/
def Board : Type := Fin 8 → Fin 8 → Option Piece

/-- Board::get_piece. -/
def Board.get_piece (b : Board) (pos : BoardPosition) : Option Piece :=
  b pos.file pos.rank

/-- Board::set_piece, the only mutator of the board. -/
def Board.set_piece (b : Board) (pos : BoardPosition) (piece : Option Piece) : Board :=
  fun f r => if f = pos.file ∧ r = pos.rank then piece else b f r

/-- Board::empty_board. -/
def Board.empty_board : Board := fun _ _ => none

/-- The occupant classification of a square from one player's
perspective (src/board/mod.rs). -/
inductive OccupantState where
  | empty | friendly | enemy
deriving DecidableEq, Repr

/-- Board::get_occupant_state. -/
def Board.get_occupant_state (b : Board) (pos : BoardPosition) (active_player : PlayerColor) :
    OccupantState :=
  match b.get_piece pos with
  | none => .empty
  | some piece => if piece.player = active_player then .friendly else .enemy

/-- The 64 squares in the order the BoardIterator of src/board/mod.rs
produces them: file 0..7 within rank 0, then rank 1, and so on. -/
def boardIterSquares : List BoardPosition :=
  (List.finRange 8).flatMap fun r => (List.finRange 8).map fun f => ⟨f, r⟩

/-- The 64 squares in the order the nested loops of src/moves.rs
(get_available_moves final filter) and src/chess.rs
(recalculate_available_moves) visit them: for file 0..7, for rank 0..7. -/
def fileMajorSquares : List BoardPosition :=
  (List.finRange 8).flatMap fun f => (List.finRange 8).map fun r => ⟨f, r⟩

/-- Left rotation of a 64-bit word, embedded on Nat: the source calls
u64::rotate_left with a shift below 64 (src/moves/util.rs). -/
def rotateLeft64 (x n : Nat) : Nat :=
  ((x <<< (n % 64)) % (2 ^ 64)) ||| (x >>> ((64 - n % 64) % 64))

/-- Right rotation of a 64-bit word, embedded on Nat
(src/moves/util.rs uses u64::rotate_right in Bitmap64::get). -/
def rotateRight64 (x n : Nat) : Nat :=
  (x >>> (n % 64)) ||| ((x <<< ((64 - n % 64) % 64)) % (2 ^ 64))

/-- The packed 64-bit boolean map (src/moves/util.rs struct Bitmap64);
the u64 data word is embedded as a Nat. -/
structure Bitmap64 where
  data : Nat
deriving DecidableEq, Repr

/-- Bitmap64::all_zeros. -/
def Bitmap64.all_zeros : Bitmap64 := ⟨0⟩

/-- Bitmap64::all_ones. -/
def Bitmap64.all_ones : Bitmap64 := ⟨0xffffffffffffffff⟩

/-- Bitmap64::get: (data.rotate_right(index) & 0x1) == 1. -/
def Bitmap64.get (b : Bitmap64) (index : Nat) : Bool :=
  (rotateRight64 b.data index) &&& 0x1 = 1

/-- Bitmap64::set: or with 1 rotated left for setting, and with
0xfffffffffffffffe rotated left for clearing. -/
def Bitmap64.set (b : Bitmap64) (index : Nat) (value : Bool) : Bitmap64 :=
  if value then
    ⟨b.data ||| rotateLeft64 0x0000000000000001 index⟩
  else
    ⟨b.data &&& rotateLeft64 0xfffffffffffffffe index⟩

/-- The per-square boolean map over the chess board
(src/moves/util.rs struct BoardBitmap). -/
structure BoardBitmap where
  bitmap : Bitmap64
deriving DecidableEq, Repr

/-- BoardBitmap::all_zeros. -/
def BoardBitmap.all_zeros : BoardBitmap := ⟨Bitmap64.all_zeros⟩

/-- BoardBitmap::all_ones. -/
def BoardBitmap.all_ones : BoardBitmap := ⟨Bitmap64.all_ones⟩

/-- BoardBitmap::get, indexing through the U6 encoding of the square. -/
def BoardBitmap.get (b : BoardBitmap) (index : BoardPosition) : Bool :=
  b.bitmap.get index.toU6

/-- BoardBitmap::set. -/
def BoardBitmap.set (b : BoardBitmap) (index : BoardPosition) (value : Bool) : BoardBitmap :=
  ⟨b.bitmap.set index.toU6 value⟩

/-- BoardBitmap::is_all_zeros: the data word equals 0. -/
def BoardBitmap.is_all_zeros (b : BoardBitmap) : Bool :=
  b.bitmap.data = 0

/-- WHITE_PAWN_BOARD_LINES (src/moves/move_patterns.rs). -/
def WHITE_PAWN_BOARD_LINES : List BoardLine :=
  [⟨(0, 1), 1, .moveOnly⟩, ⟨(1, 1), 1, .captureOnly⟩, ⟨(-1, 1), 1, .captureOnly⟩]

/-- BLACK_PAWN_BOARD_LINES (src/moves/move_patterns.rs). -/
def BLACK_PAWN_BOARD_LINES : List BoardLine :=
  [⟨(0, -1), 1, .moveOnly⟩, ⟨(1, -1), 1, .captureOnly⟩, ⟨(-1, -1), 1, .captureOnly⟩]

/-- ROOK_BOARD_LINES (src/moves/move_patterns.rs). -/
def ROOK_BOARD_LINES : List BoardLine :=
  [⟨(1, 0), 7, .normal⟩, ⟨(0, 1), 7, .normal⟩, ⟨(-1, 0), 7, .normal⟩, ⟨(0, -1), 7, .normal⟩]

/-- KNIGHT_BOARD_LINES (src/moves/move_patterns.rs). -/
def KNIGHT_BOARD_LINES : List BoardLine :=
  [⟨(1, 2), 1, .normal⟩, ⟨(-1, 2), 1, .normal⟩, ⟨(-2, 1), 1, .normal⟩, ⟨(-2, -1), 1, .normal⟩,
   ⟨(-1, -2), 1, .normal⟩, ⟨(1, -2), 1, .normal⟩, ⟨(2, -1), 1, .normal⟩, ⟨(2, 1), 1, .normal⟩]

/-- BISHOP_BOARD_LINES (src/moves/move_patterns.rs). -/
def BISHOP_BOARD_LINES : List BoardLine :=
  [⟨(1, 1), 7, .normal⟩, ⟨(-1, 1), 7, .normal⟩, ⟨(-1, -1), 7, .normal⟩, ⟨(1, -1), 7, .normal⟩]

/-- QUEEN_BOARD_LINES (src/moves/move_patterns.rs). -/
def QUEEN_BOARD_LINES : List BoardLine :=
  [⟨(1, 0), 7, .normal⟩, ⟨(0, 1), 7, .normal⟩, ⟨(-1, 0), 7, .normal⟩, ⟨(0, -1), 7, .normal⟩,
   ⟨(1, 1), 7, .normal⟩, ⟨(-1, 1), 7, .normal⟩, ⟨(-1, -1), 7, .normal⟩, ⟨(1, -1), 7, .normal⟩]

/-- KING_BOARD_LINES (src/moves/move_patterns.rs). -/
def KING_BOARD_LINES : List BoardLine :=
  [⟨(1, 0), 1, .normal⟩, ⟨(0, 1), 1, .normal⟩, ⟨(-1, 0), 1, .normal⟩, ⟨(0, -1), 1, .normal⟩,
   ⟨(1, 1), 1, .normal⟩, ⟨(-1, 1), 1, .normal⟩, ⟨(-1, -1), 1, .normal⟩, ⟨(1, -1), 1, .normal⟩]

/-- WHITE_KING_CHECK_BOARD_LINES (src/moves/move_patterns.rs). -/
def WHITE_KING_CHECK_BOARD_LINES : List (PieceType × List BoardLine) :=
  [(.pawn, WHITE_PAWN_BOARD_LINES), (.rook, ROOK_BOARD_LINES), (.knight, KNIGHT_BOARD_LINES),
   (.bishop, BISHOP_BOARD_LINES), (.queen, QUEEN_BOARD_LINES), (.king, KING_BOARD_LINES)]

/-- BLACK_KING_CHECK_BOARD_LINES (src/moves/move_patterns.rs). -/
def BLACK_KING_CHECK_BOARD_LINES : List (PieceType × List BoardLine) :=
  [(.pawn, BLACK_PAWN_BOARD_LINES), (.rook, ROOK_BOARD_LINES), (.knight, KNIGHT_BOARD_LINES),
   (.bishop, BISHOP_BOARD_LINES), (.queen, QUEEN_BOARD_LINES), (.king, KING_BOARD_LINES)]

/-- get_board_lines (src/moves/move_patterns.rs). -/
def get_board_lines (piece : Piece) : List BoardLine :=
  match piece.piece_type, piece.player with
  | .pawn, .white => WHITE_PAWN_BOARD_LINES
  | .pawn, .black => BLACK_PAWN_BOARD_LINES
  | .rook, _ => ROOK_BOARD_LINES
  | .knight, _ => KNIGHT_BOARD_LINES
  | .bishop, _ => BISHOP_BOARD_LINES
  | .queen, _ => QUEEN_BOARD_LINES
  | .king, _ => KING_BOARD_LINES

/-- char::to_digit(10): the value of a decimal digit character. -/
def char_to_digit (ch : Char) : Option Nat :=
  if '0' ≤ ch ∧ ch ≤ '9' then some (ch.toNat - '0'.toNat) else none

/-- The character loop of Board::from_fen_string (src/board/mod.rs),
carrying the board under construction and the current file and rank
counters.  The rank counter starts at 0 and is incremented at each
separator, so the first rank segment of the string fills rank index 0. -/
def from_fen_loop : List Char → Board → Nat → Nat → Option Board
  | [], board, file, rank =>
    if file = 8 ∧ rank = 7 then some board else none
  | ch :: rest, board, file, rank =>
    match Piece.from_char ch with
    | some piece =>
      if h : 8 ≤ file ∨ 8 ≤ rank then
        none
      else
        from_fen_loop rest
          (board.set_piece ⟨⟨file, by omega⟩, ⟨rank, by omega⟩⟩ (some piece)) (file + 1) rank
    | none =>
      match char_to_digit ch with
      | some digit =>
        if 8 < digit + file then none
        else from_fen_loop rest board (file + digit) rank
      | none =>
        if ch = '/' then
          if file ≠ 8 ∨ 6 < rank then none
          else from_fen_loop rest board 0 (rank + 1)
        else
          none

/-- Board::from_fen_string (src/board/mod.rs). -/
def Board.from_fen_string (s : String) : Option Board :=
  from_fen_loop s.data Board.empty_board 0 0

/-- A valid piece type a pawn may promote to (src/moves.rs). -/
inductive PromotionType where
  | knight | bishop | rook | queen
deriving DecidableEq, Repr

/-- The Into PieceType conversion of PromotionType (src/moves.rs). -/
def PromotionType.toPieceType : PromotionType → PieceType
  | .knight => .knight
  | .bishop => .bishop
  | .rook => .rook
  | .queen => .queen

/-- The movement of a piece from one square to another (src/moves.rs). -/
structure PieceMovement where
  from_pos : BoardPosition
  to_pos : BoardPosition
deriving DecidableEq, Repr

/-- A chess move: a movement plus an optional promotion (src/moves.rs). -/
structure ChessMove where
  piece_movement : PieceMovement
  promotion : Option PromotionType
deriving DecidableEq, Repr

/-- Per-player castling rights (src/moves.rs). -/
structure CastlingRights where
  queenside : Bool
  kingside : Bool
deriving DecidableEq, Repr

/-- The Default instance of CastlingRights: both rights held. -/
def CastlingRights.default : CastlingRights := ⟨true, true⟩

/-- The castling rights and en-passant target applicable to the player
about to move (src/moves.rs). -/
structure MoveContext where
  castling_rights : CastlingRights
  en_passant_target : Option BoardPosition
deriving DecidableEq, Repr

/-- The error enumeration of the engine (src/chess.rs). -/
inductive ChessError where
  | gameNotStarted
  | gameAlreadyEnded
  | illegalMove
  | wrongTurn
  | missingPromotionType
  | unexpectedPromotionType
deriving DecidableEq, Repr

/-- find_kings (src/moves.rs): every square holding a king of the given
color, in board-iteration order. -/
def find_kings (board : Board) (active_player : PlayerColor) : List BoardPosition :=
  boardIterSquares.filter fun pos =>
    match board.get_piece pos with
    | some piece => piece.player = active_player ∧ piece.piece_type = PieceType.king
    | none => false

/-- The inner line scan of is_in_check (src/moves.rs): walk the target
squares of one line; an empty square continues the walk, any occupant
abandons the line (the source calls skip_line at the end of the loop
body unless the Empty arm ran continue), and an enemy occupant first
reports a check when the capture mode allows a capture and the piece is
of the sought type. -/
def checkLine (board : Board) (player : PlayerColor) (piece_type : PieceType) :
    List TargetSquare → Bool
  | [] => false
  | target :: rest =>
    match board.get_occupant_state target.position player with
    | .empty => checkLine board player piece_type rest
    | .friendly => false
    | .enemy =>
      (match target.capture_type with
       | .normal => true
       | .captureOnly => true
       | .moveOnly => false)
      && (match board.get_piece target.position with
          | some piece => piece.piece_type = piece_type
          | none => false)

/-- is_in_check (src/moves.rs): some king of the given color is attacked
along one of the per-piece-type check pattern lines. -/
def is_in_check (board : Board) (player : PlayerColor) : Bool :=
  (find_kings board player).any fun pos =>
    let king_check_board_lines := match player with
      | .white => WHITE_KING_CHECK_BOARD_LINES
      | .black => BLACK_KING_CHECK_BOARD_LINES
    king_check_board_lines.any fun pair =>
      pair.2.any fun line => checkLine board player pair.1 (lineSquares pos line)

/-- leads_to_check (src/moves.rs): temporarily relocate the piece, test
check, then restore both endpoints.  The final board is returned
explicitly since the source mutates it in place. -/
def leads_to_check (board : Board) (active_player : PlayerColor)
    (piece_movement : PieceMovement) : Bool × Board :=
  let moved_piece := board.get_piece piece_movement.from_pos
  let replaced_piece := board.get_piece piece_movement.to_pos
  let board := (board.set_piece piece_movement.from_pos none).set_piece
    piece_movement.to_pos moved_piece
  let in_check := is_in_check board active_player
  let board := (board.set_piece piece_movement.from_pos moved_piece).set_piece
    piece_movement.to_pos replaced_piece
  (in_check, board)

/-- create_en_passant_target (src/moves.rs). -/
def create_en_passant_target (active_player : PlayerColor)
    (piece_movement : PieceMovement) : Option BoardPosition :=
  let pawn_start_rank : Nat := match active_player with
    | .white => 1
    | .black => 6
  let double_move_rank : Nat := match active_player with
    | .white => 3
    | .black => 4
  if (piece_movement.from_pos.rank : Nat) = pawn_start_rank ∧
      (piece_movement.to_pos.rank : Nat) = double_move_rank then
    let offset : Int × Int := match active_player with
      | .white => (0, 1)
      | .black => (0, -1)
    piece_movement.from_pos.add offset
  else
    none

/-- get_en_passant_pos (src/moves.rs). -/
def get_en_passant_pos (active_player : PlayerColor)
    (en_passant_target : BoardPosition) : Option BoardPosition :=
  let offset : Int × Int := match active_player with
    | .white => (0, -1)
    | .black => (0, 1)
  en_passant_target.add offset

/-- is_first_move_pawn (src/moves.rs): the one-square and two-square
forward squares when the pawn stands on its start rank. -/
def is_first_move_pawn (active_player : PlayerColor) (pos : BoardPosition) :
    Option (BoardPosition × BoardPosition) :=
  match active_player with
  | .white =>
    if (pos.rank : Nat) = 1 then
      match pos.add (0, 1), pos.add (0, 2) with
      | some a, some b => some (a, b)
      | _, _ => none
    else none
  | .black =>
    if (pos.rank : Nat) = 6 then
      match pos.add (0, -1), pos.add (0, -2) with
      | some a, some b => some (a, b)
      | _, _ => none
    else none

/-- add_en_passant_moves (src/moves.rs): trial-apply the en-passant
capture, mark the target when it does not leave the active king in
check, and undo the trial.  Returns the bitmap and the final board. -/
def add_en_passant_moves (board : Board) (active_player : PlayerColor) (pos : BoardPosition)
    (en_passant_target : BoardPosition) (bitmap : BoardBitmap) : BoardBitmap × Board :=
  let capture_offsets : (Int × Int) × (Int × Int) := match active_player with
    | .white => ((-1, 1), (1, 1))
    | .black => ((-1, -1), (1, -1))
  let capture_squares := (pos.add capture_offsets.1, pos.add capture_offsets.2)
  if some en_passant_target ≠ capture_squares.1 ∧ some en_passant_target ≠ capture_squares.2 then
    (bitmap, board)
  else
    match get_en_passant_pos active_player en_passant_target with
    | none => (bitmap, board)
    | some en_passanted_pos =>
      let moved_piece := board.get_piece pos
      let destination_piece := board.get_piece en_passant_target
      let en_passanted_piece := board.get_piece en_passanted_pos
      let board := ((board.set_piece pos none).set_piece en_passant_target
        moved_piece).set_piece en_passanted_pos none
      let bitmap := if ! is_in_check board active_player then
          bitmap.set en_passant_target true
        else bitmap
      let board := ((board.set_piece pos moved_piece).set_piece en_passant_target
        destination_piece).set_piece en_passanted_pos en_passanted_piece
      (bitmap, board)

/-- The passes_through loop of add_on_side (src/moves.rs,
add_castling_moves): abort as soon as some transit square leads to
check, threading the board through the trials. -/
def castlingPassLoop (active_player : PlayerColor) (king_moves_from : BoardPosition) :
    List BoardPosition → Board → Bool × Board
  | [], board => (false, board)
  | square :: rest, board =>
    let result := leads_to_check board active_player ⟨king_moves_from, square⟩
    if result.1 then (true, result.2)
    else castlingPassLoop active_player king_moves_from rest result.2

/-- The add_on_side closure of add_castling_moves (src/moves.rs). -/
def add_on_side (board : Board) (active_player : PlayerColor) (rook_pos : BoardPosition)
    (king_moves_from king_moves_to : BoardPosition) (must_be_empty : List BoardPosition)
    (passes_through : List BoardPosition) (bitmap : BoardBitmap) : BoardBitmap × Board :=
  match board.get_piece rook_pos with
  | none => (bitmap, board)
  | some piece =>
    if piece.piece_type ≠ PieceType.rook then (bitmap, board)
    else if must_be_empty.any (fun square => (board.get_piece square).isSome) then
      (bitmap, board)
    else
      let result := castlingPassLoop active_player king_moves_from passes_through board
      if result.1 then (bitmap, result.2)
      else (bitmap.set king_moves_to true, result.2)

/-- add_castling_moves (src/moves.rs). -/
def add_castling_moves (board : Board) (active_player : PlayerColor)
    (castling_rights : CastlingRights) (bitmap : BoardBitmap) : BoardBitmap × Board :=
  if is_in_check board active_player then (bitmap, board)
  else
    let rank : Fin 8 := match active_player with
      | .white => 0
      | .black => 7
    let king_moves_from : BoardPosition := ⟨4, rank⟩
    let (bitmap, board) :=
      if castling_rights.queenside then
        add_on_side board active_player ⟨0, rank⟩ king_moves_from ⟨2, rank⟩
          [⟨1, rank⟩, ⟨2, rank⟩, ⟨3, rank⟩] [⟨2, rank⟩, ⟨3, rank⟩] bitmap
      else (bitmap, board)
    if castling_rights.kingside then
      add_on_side board active_player ⟨7, rank⟩ king_moves_from ⟨6, rank⟩
        [⟨5, rank⟩, ⟨6, rank⟩] [⟨5, rank⟩, ⟨6, rank⟩] bitmap
    else (bitmap, board)

/-- The geometric walk of one line inside get_available_moves
(src/moves.rs): an empty square is marked when the capture mode permits
a plain move and the walk continues; a friendly occupant abandons the
line; an enemy occupant is marked and the line abandoned when the
capture mode permits a capture, and is walked past otherwise (only
MoveOnly lines, which have length 1, hit that arm). -/
def genLine (board : Board) (active_player : PlayerColor) :
    List TargetSquare → BoardBitmap → BoardBitmap
  | [], bitmap => bitmap
  | target :: rest, bitmap =>
    match board.get_occupant_state target.position active_player with
    | .empty =>
      let bitmap := match target.capture_type with
        | .normal => bitmap.set target.position true
        | .moveOnly => bitmap.set target.position true
        | .captureOnly => bitmap
      genLine board active_player rest bitmap
    | .friendly => bitmap
    | .enemy =>
      match target.capture_type with
      | .normal => bitmap.set target.position true
      | .captureOnly => bitmap.set target.position true
      | .moveOnly => genLine board active_player rest bitmap

/-- The final legality filter of get_available_moves (src/moves.rs):
for file 0..7 and rank 0..7, a marked destination is cleared when the
move leads to check, threading the board through the trials. -/
def filterChecks (active_player : PlayerColor) (pos : BoardPosition) :
    List BoardPosition → BoardBitmap × Board → BoardBitmap × Board
  | [], state => state
  | move_to :: rest, (bitmap, board) =>
    if bitmap.get move_to then
      let result := leads_to_check board active_player ⟨pos, move_to⟩
      filterChecks active_player pos rest
        (if result.1 then bitmap.set move_to false else bitmap, result.2)
    else
      filterChecks active_player pos rest (bitmap, board)

/-- get_available_moves (src/moves.rs): the legal-move bitmap for the
piece on a square.  The function returns the final board alongside the
bitmap since the source threads a mutable board through its hypothetical
trials.  A square without a piece, or holding a piece of the other
color, yields the all-zero bitmap (the turn guard of src/moves.rs line
311). -/
def get_available_moves (board : Board) (active_player : PlayerColor) (pos : BoardPosition)
    (move_context : MoveContext) : BoardBitmap × Board :=
  let bitmap := BoardBitmap.all_zeros
  match board.get_piece pos with
  | none => (bitmap, board)
  | some piece =>
    if piece.player ≠ active_player then (bitmap, board)
    else
      let bitmap := (get_board_lines piece).foldl
        (fun bitmap line => genLine board active_player (lineSquares pos line) bitmap) bitmap
      let (bitmap, board) :=
        match piece.piece_type with
        | .pawn =>
          let (bitmap, board) :=
            match move_context.en_passant_target with
            | some en_passant_target =>
              add_en_passant_moves board active_player pos en_passant_target bitmap
            | none => (bitmap, board)
          let bitmap :=
            match is_first_move_pawn active_player pos with
            | some (forward_move_pos, double_move_pos) =>
              match board.get_occupant_state forward_move_pos active_player,
                  board.get_occupant_state double_move_pos active_player with
              | .empty, .empty => bitmap.set double_move_pos true
              | _, _ => bitmap
            | none => bitmap
          (bitmap, board)
        | .king => add_castling_moves board active_player move_context.castling_rights bitmap
        | _ => (bitmap, board)
      filterChecks active_player pos fileMajorSquares (bitmap, board)

/-- The result record of a committed move (src/moves.rs). -/
structure MoveResult where
  captured_piece : Option Piece
  new_en_passant_target : Option BoardPosition
  removes_queenside_castling_rights : Bool
  removes_kingside_castling_rights : Bool
deriving DecidableEq, Repr

/-- The promotion step of the Pawn arm of do_move (src/moves.rs): on
the promotion rank the move must carry a promotion type, which replaces
the moved piece's type; off the promotion rank a supplied promotion
type is rejected. -/
def pawn_promoted (active_player : PlayerColor) (chess_move : ChessMove)
    (moved_piece : Piece) : Except ChessError Piece :=
  let promotion_rank : Nat := match active_player with
    | .white => 7
    | .black => 0
  if (chess_move.piece_movement.to_pos.rank : Nat) = promotion_rank then
    match chess_move.promotion with
    | some promotion => .ok ⟨promotion.toPieceType, active_player⟩
    | none => .error .missingPromotionType
  else
    if chess_move.promotion.isSome then .error .unexpectedPromotionType
    else .ok moved_piece

/-- do_move (src/moves.rs): perform a chess move without checking
legality, handling en passant, castling and promotion.  Returns the
move result together with the final board.  Note that the Rook arm of
the source consists of two bare field reads
(result.removes_queenside_castling_rights; and its kingside twin),
which are no-op expressions: the arm changes nothing, and is embedded
as such. -/
def do_move (board : Board) (active_player : PlayerColor) (chess_move : ChessMove)
    (move_context : MoveContext) : Except ChessError (MoveResult × Board) :=
  let result : MoveResult := ⟨none, none, false, false⟩
  match board.get_piece chess_move.piece_movement.from_pos with
  | none => .ok (result, board)
  | some moved_piece =>
    if moved_piece.piece_type ≠ PieceType.pawn ∧ chess_move.promotion.isSome then
      .error .unexpectedPromotionType
    else
      let result := { result with
        captured_piece := board.get_piece chess_move.piece_movement.to_pos }
      let step : Except ChessError (MoveResult × Piece × Board) :=
        match moved_piece.piece_type with
        | .pawn =>
          let result := { result with
            new_en_passant_target :=
              create_en_passant_target active_player chess_move.piece_movement }
          match pawn_promoted active_player chess_move moved_piece with
          | .error e => .error e
          | .ok piece_after_move =>
            match move_context.en_passant_target with
            | some en_passant_target =>
              if chess_move.piece_movement.to_pos = en_passant_target then
                match get_en_passant_pos active_player en_passant_target with
                | some en_passant_pos =>
                  .ok ({ result with captured_piece := board.get_piece en_passant_pos },
                    piece_after_move, board.set_piece en_passant_pos none)
                | none => .ok (result, piece_after_move, board)
              else .ok (result, piece_after_move, board)
            | none => .ok (result, piece_after_move, board)
        | .king =>
          let rank : Fin 8 := match active_player with
            | .white => 0
            | .black => 7
          let queenside_move : PieceMovement := ⟨⟨4, rank⟩, ⟨2, rank⟩⟩
          let kingside_move : PieceMovement := ⟨⟨4, rank⟩, ⟨6, rank⟩⟩
          let board :=
            if chess_move.piece_movement = queenside_move then
              let rook := board.get_piece ⟨0, rank⟩
              (board.set_piece ⟨0, rank⟩ none).set_piece ⟨3, rank⟩ rook
            else if chess_move.piece_movement = kingside_move then
              let rook := board.get_piece ⟨7, rank⟩
              (board.set_piece ⟨7, rank⟩ none).set_piece ⟨5, rank⟩ rook
            else board
          let result := { result with
            removes_queenside_castling_rights := true
            removes_kingside_castling_rights := true }
          .ok (result, moved_piece, board)
        | .rook =>
          -- the source's two no-op expressions would go here; they
          -- neither modify result nor the board
          .ok (result, moved_piece, board)
        | _ => .ok (result, moved_piece, board)
      match step with
      | .error e => .error e
      | .ok (result, piece_after_move, board) =>
        .ok (result,
          (board.set_piece chess_move.piece_movement.from_pos none).set_piece
            chess_move.piece_movement.to_pos (some piece_after_move))

/-- A valid reason for a draw (src/chess.rs). -/
inductive DrawReason where
  | stalemate | drawByAgreement
deriving DecidableEq, Repr

/-- A valid reason for a win (src/chess.rs). -/
inductive WinReason where
  | checkmate | resignation
deriving DecidableEq, Repr

/-- The status of a chess game (src/chess.rs). -/
inductive GameStatus where
  | notYetStarted
  | normal
  | draw (reason : DrawReason)
  | win (player : PlayerColor) (reason : WinReason)
deriving DecidableEq, Repr

/-- The cached legal-move bitmaps, one per origin square
(src/chess.rs stores [[BoardBitmap; 8]; 8] indexed by file then rank). -/
def MoveCache : Type := Fin 8 → Fin 8 → BoardBitmap

/-- Writing one entry of the cache. -/
def MoveCache.write (c : MoveCache) (file rank : Fin 8) (bm : BoardBitmap) : MoveCache :=
  fun f r => if f = file ∧ r = rank then bm else c f r

/-- The game state machine (src/chess.rs struct ChessGame). -/
structure ChessGame where
  game_status : GameStatus
  active_player : PlayerColor
  board : Board
  available_moves : MoveCache
  castling_rights : CastlingRights × CastlingRights
  en_passant_target : Option BoardPosition

/-- ChessGame::castling_rights (src/chess.rs): the rights of one
player. -/
def ChessGame.castlingRightsOf (g : ChessGame) (player : PlayerColor) : CastlingRights :=
  match player with
  | .white => g.castling_rights.1
  | .black => g.castling_rights.2

/-- ChessGame::move_context (src/chess.rs). -/
def ChessGame.move_context (g : ChessGame) : MoveContext :=
  ⟨g.castlingRightsOf g.active_player, g.en_passant_target⟩

/-- ChessGame::recalculate_available_moves (src/chess.rs): for file 0..7
and rank 0..7, compute the legal-move bitmap of that square and store it
in the cache, threading the board through the calls.  The context is
constant across the loop since the source re-reads unchanged fields. -/
def recalculate_available_moves (board : Board) (active_player : PlayerColor)
    (move_context : MoveContext) (cache : MoveCache) : MoveCache × Board :=
  fileMajorSquares.foldl
    (fun state pos =>
      let result := get_available_moves state.2 active_player pos move_context
      (state.1.write pos.file pos.rank result.1, result.2))
    (cache, board)

/-- ChessGame::new (src/chess.rs): NotYetStarted, White to move, default
castling rights, no en-passant target, and an immediately computed
legal-move cache. -/
def ChessGame.new (starting_board : Board) : ChessGame :=
  let game : ChessGame :=
    { game_status := .notYetStarted
      active_player := .white
      board := starting_board
      available_moves := fun _ _ => BoardBitmap.all_zeros
      castling_rights := (CastlingRights.default, CastlingRights.default)
      en_passant_target := none }
  let result := recalculate_available_moves game.board game.active_player game.move_context
    game.available_moves
  { game with available_moves := result.1, board := result.2 }

/-- ChessGame::available_moves (src/chess.rs): read a cached bitmap. -/
def ChessGame.availableMovesAt (g : ChessGame) (pos : BoardPosition) : BoardBitmap :=
  g.available_moves pos.file pos.rank

/-- Updating the castling-rights store from a MoveResult
(the two conditionals at the top of ChessGame::after_move). -/
def applyRightsRemoval (rights : CastlingRights × CastlingRights)
    (active_player : PlayerColor) (move_result : MoveResult) :
    CastlingRights × CastlingRights :=
  let rights :=
    if move_result.removes_queenside_castling_rights then
      match active_player with
      | .white => ({ rights.1 with queenside := false }, rights.2)
      | .black => (rights.1, { rights.2 with queenside := false })
    else rights
  if move_result.removes_kingside_castling_rights then
    match active_player with
    | .white => ({ rights.1 with kingside := false }, rights.2)
    | .black => (rights.1, { rights.2 with kingside := false })
  else rights

/-- ChessGame::after_move (src/chess.rs): apply the en-passant target
and castling-rights deltas, flip the active player, recompute the full
legal-move cache, then evaluate termination: with zero legal moves
everywhere the game ends in Checkmate (win for the player who just
moved) when the new active player is in check, else Stalemate.  The
board argument is the board that the source holds in self.board after
moves::do_move. -/
def ChessGame.after_move (g : ChessGame) (move_result : MoveResult) (board : Board) :
    ChessGame :=
  let en_passant_target := move_result.new_en_passant_target
  let castling_rights := applyRightsRemoval g.castling_rights g.active_player move_result
  let active_player := g.active_player.other_player
  let rights_of_active := match active_player with
    | .white => castling_rights.1
    | .black => castling_rights.2
  let recalc := recalculate_available_moves board active_player
    ⟨rights_of_active, en_passant_target⟩ g.available_moves
  let available_moves := recalc.1
  let board := recalc.2
  let has_available_moves := fileMajorSquares.any fun pos =>
    ! (available_moves pos.file pos.rank).is_all_zeros
  let game_status :=
    if has_available_moves then g.game_status
    else if is_in_check board active_player then
      GameStatus.win active_player.other_player .checkmate
    else
      GameStatus.draw .stalemate
  { game_status := game_status
    active_player := active_player
    board := board
    available_moves := available_moves
    castling_rights := castling_rights
    en_passant_target := en_passant_target }

/-- ChessGame::do_move (src/chess.rs): fail on a terminal status,
transition NotYetStarted to Normal, reject a destination whose bit is
unset in the cached bitmap for the origin, delegate to moves::do_move,
and on success run after_move. -/
def ChessGame.do_move (g : ChessGame) (chess_move : ChessMove) :
    Except ChessError ChessGame :=
  match g.game_status with
  | .draw _ => .error .gameAlreadyEnded
  | .win _ _ => .error .gameAlreadyEnded
  | _ =>
    let g : ChessGame := { g with game_status := .normal }
    let available_moves := g.availableMovesAt chess_move.piece_movement.from_pos
    if ! available_moves.get chess_move.piece_movement.to_pos then
      .error .illegalMove
    else
      match LebenChess.do_move g.board g.active_player chess_move g.move_context with
      | .error e => .error e
      | .ok (move_result, board) => .ok (g.after_move move_result board)

/-- The squares a committed move may touch: origin and destination, the
rook squares of the matched castling geometry for a king move, and the
captured pawn square for an en-passant capture (the branch conditions
mirror those of do_move in src/moves.rs). -/
def implicated_squares (board : Board) (active_player : PlayerColor) (chess_move : ChessMove)
    (move_context : MoveContext) : List BoardPosition :=
  let mv := chess_move.piece_movement
  match board.get_piece mv.from_pos with
  | none => [mv.from_pos, mv.to_pos]
  | some piece =>
    match piece.piece_type with
    | .king =>
      let rank : Fin 8 := match active_player with
        | .white => 0
        | .black => 7
      if mv = ⟨⟨4, rank⟩, ⟨2, rank⟩⟩ then [mv.from_pos, mv.to_pos, ⟨0, rank⟩, ⟨3, rank⟩]
      else if mv = ⟨⟨4, rank⟩, ⟨6, rank⟩⟩ then [mv.from_pos, mv.to_pos, ⟨7, rank⟩, ⟨5, rank⟩]
      else [mv.from_pos, mv.to_pos]
    | .pawn =>
      match move_context.en_passant_target with
      | some target =>
        if mv.to_pos = target then
          match get_en_passant_pos active_player target with
          | some p => [mv.from_pos, mv.to_pos, p]
          | none => [mv.from_pos, mv.to_pos]
        else [mv.from_pos, mv.to_pos]
      | none => [mv.from_pos, mv.to_pos]
    | _ => [mv.from_pos, mv.to_pos]

/-- The board writes the from_fen_string loop performs while consuming
one rank segment (no separator inside): pieces are placed at the running
file on the given rank, digits advance the file, exactly as in
from_fen_loop. -/
def place_seg_from : List Char → Board → Nat → Nat → Board
  | [], b, _, _ => b
  | c :: cs, b, fl, rk =>
    match Piece.from_char c with
    | some piece =>
      if h : 8 ≤ fl ∨ 8 ≤ rk then b
      else place_seg_from cs (b.set_piece ⟨⟨fl, by omega⟩, ⟨rk, by omega⟩⟩ (some piece)) (fl + 1) rk
    | none =>
      match char_to_digit c with
      | some d => place_seg_from cs b (fl + d) rk
      | none => place_seg_from cs b fl rk

/-- The file width a rank segment covers: one file per piece letter,
the digit value per digit. -/
def sumFiles : List Char → Nat
  | [] => 0
  | c :: cs =>
    (match Piece.from_char c with
     | some _ => 1
     | none => (char_to_digit c).getD 0) + sumFiles cs

/-- A rank segment contains only piece letters and digits. -/
def seg_chars_ok (cs : List Char) : Prop :=
  ∀ c ∈ cs, (Piece.from_char c).isSome = true ∨ (char_to_digit c).isSome = true

instance instDecidableSegCharsOk (cs : List Char) : Decidable (seg_chars_ok cs) := by
  unfold seg_chars_ok
  infer_instance

/-- Modelled from the spec: the piece a rank segment, read from a
starting file, denotes for a given file of its rank, in the words of
the interchange-format section: each rank is a sequence of piece
letters and digits denoting consecutive empty squares. -/
def seg_piece_at : List Char → Nat → Nat → Option Piece
  | [], _, _ => none
  | c :: cs, fl, f =>
    match Piece.from_char c with
    | some piece => if f = fl then some piece else seg_piece_at cs (fl + 1) f
    | none =>
      match char_to_digit c with
      | some d => if fl ≤ f ∧ f < fl + d then none else seg_piece_at cs (fl + d) f
      | none => seg_piece_at cs fl f

/-- Placing a list of rank segments on consecutive ranks, the first
segment on the starting rank. -/
def place_ranks : List (List Char) → Board → Nat → Board
  | [], b, _ => b
  | seg :: rest, b, rk => place_ranks rest (place_seg_from seg b 0 rk) (rk + 1)

/-- A well-formed rank segment: only piece letters and digits, covering
exactly 8 files. -/
def fen_seg_wf (cs : List Char) : Prop :=
  seg_chars_ok cs ∧ sumFiles cs = 8

instance instDecidableFenSegWf (cs : List Char) : Decidable (fen_seg_wf cs) := by
  unfold fen_seg_wf
  exact instDecidableAnd

/-- Joining rank segments with the separator character. -/
def joinFenSegs : List (List Char) → List Char
  | [] => []
  | [s] => s
  | s :: rest => s ++ '/' :: joinFenSegs rest

/-- The rank segments of a character stream split at the separators:
the head segment and the list of later segments. -/
def segsOf : List Char → List Char × List (List Char)
  | [] => ([], [])
  | c :: cs =>
    let p := segsOf cs
    if c = '/' then ([], p.1 :: p.2) else (c :: p.1, p.2)

/-- The characters the parser can consume somewhere: piece letters,
digits 0 through 8 (a 9 always overflows the file count), and the
separator. -/
def fen_char_ok (c : Char) : Bool :=
  (Piece.from_char c).isSome ||
  (match char_to_digit c with
   | some d => decide (d ≤ 8)
   | none => false) ||
  c = '/'

/-- Extracting the payload of a successful result, with a fallback for
the error case; used to name concrete results in witnesses. -/
def exceptGetOk {e a : Type} (x : Except e a) (dflt : a) : a :=
  match x with
  | .ok v => v
  | .error _ => dflt

/-- A move context with default castling rights and no en-passant
target. -/
def ctxDefault : MoveContext := ⟨CastlingRights.default, none⟩

/-- Concrete board: white rooks a1 and h1, white king e1, black king
e8. -/
def rookFlagBoard : Board :=
  (((Board.empty_board.set_piece ⟨0, 0⟩ (some ⟨.rook, .white⟩)).set_piece ⟨7, 0⟩
    (some ⟨.rook, .white⟩)).set_piece ⟨4, 0⟩ (some ⟨.king, .white⟩)).set_piece ⟨4, 7⟩
    (some ⟨.king, .black⟩)

/-- Concrete board: white king a1, black king h8, black pawn a7. -/
def guardExampleBoard : Board :=
  ((Board.empty_board.set_piece ⟨0, 0⟩ (some ⟨.king, .white⟩)).set_piece ⟨7, 7⟩
    (some ⟨.king, .black⟩)).set_piece ⟨0, 6⟩ (some ⟨.pawn, .black⟩)

/-- The rook move a1 to a2. -/
def rookMoveA : ChessMove := ⟨⟨⟨0, 0⟩, ⟨0, 1⟩⟩, none⟩

/-- A fallback move-application result for exceptGetOk. -/
def moveResultDefault : MoveResult × Board := (⟨none, none, false, false⟩, Board.empty_board)

/-- Concrete board: white king a1, black king h8. -/
def c2Board : Board :=
  (Board.empty_board.set_piece ⟨0, 0⟩ (some ⟨.king, .white⟩)).set_piece ⟨7, 7⟩
    (some ⟨.king, .black⟩)

/-- The game state machine started on c2Board. -/
def c2Game : ChessGame := ChessGame.new c2Board

/-- The king move a1 to b1. -/
def c2Move : ChessMove := ⟨⟨⟨0, 0⟩, ⟨1, 0⟩⟩, none⟩

/-- A fallback game for exceptGetOk. -/
def c2GameDefault : ChessGame :=
  ⟨.normal, .white, Board.empty_board, fun _ _ => BoardBitmap.all_zeros,
    (CastlingRights.default, CastlingRights.default), none⟩

/-- The game state after playing c2Move on c2Game. -/
def c2After : ChessGame := exceptGetOk (c2Game.do_move c2Move) c2GameDefault

/-! ## Theorems -/

theorem Board.get_set_same (b : Board) (pos : BoardPosition) (piece : Option Piece) :
    (b.set_piece pos piece).get_piece pos = piece := by
  simp [Board.get_piece, Board.set_piece]

theorem Board.get_set_ne (b : Board) (pos q : BoardPosition) (piece : Option Piece)
    (h : q ≠ pos) : (b.set_piece pos piece).get_piece q = b.get_piece q := by
  have : ¬(q.file = pos.file ∧ q.rank = pos.rank) := by
    intro hc
    exact h (by cases q; cases pos; simp_all)
  simp [Board.get_piece, Board.set_piece, this]

theorem PlayerColor.other_other (p : PlayerColor) : p.other_player.other_player = p := by
  cases p <;> rfl

theorem rotl_one_eq : ∀ i < 64, rotateLeft64 1 i = 2 ^ i := by decide

theorem rotl_fe_eq : ∀ i < 64, rotateLeft64 0xfffffffffffffffe i = 2 ^ 64 - 1 - 2 ^ i := by
  decide

theorem mask_bit : ∀ i < 64, ∀ j < 64, Nat.testBit (2 ^ 64 - 1 - 2 ^ i) j = decide (j ≠ i) := by
  decide

theorem get_eq_testBit (d i : Nat) (h : i < 64) : Bitmap64.get ⟨d⟩ i = Nat.testBit d i := by
  have hx : ∀ x : Nat, (decide ((x &&& 1) = 1) : Bool) = Nat.testBit x 0 := by
    intro x
    rw [Nat.and_one_is_mod, Nat.testBit_to_div_mod]
    simp
  unfold Bitmap64.get rotateRight64
  rw [Nat.mod_eq_of_lt h]
  rw [hx]
  rw [Nat.testBit_lor, Nat.testBit_mod_two_pow, Nat.testBit_shiftLeft, Nat.testBit_shiftRight]
  rcases Nat.eq_zero_or_pos i with h0 | hpos
  · subst h0; simp
  · have h1 : (64 - i) % 64 = 64 - i := Nat.mod_eq_of_lt (by omega)
    rw [h1]
    have h2 : ¬ (0 ≥ 64 - i) := by omega
    simp [h2]

theorem toU6_lt_aux : ∀ (f r : Fin 8), BoardPosition.toU6 ⟨f, r⟩ < 64 := by decide

theorem toU6_lt (p : BoardPosition) : p.toU6 < 64 := by
  obtain ⟨f, r⟩ := p
  exact toU6_lt_aux f r

theorem toU6_eq_aux : ∀ (f r : Fin 8), BoardPosition.toU6 ⟨f, r⟩ = 8 * (f : Nat) + (r : Nat) := by
  decide

theorem toU6_inj (p q : BoardPosition) (h : p.toU6 = q.toU6) : p = q := by
  obtain ⟨f, r⟩ := p
  obtain ⟨g, s⟩ := q
  rw [toU6_eq_aux, toU6_eq_aux] at h
  have hf := f.isLt
  have hr := r.isLt
  have hg := g.isLt
  have hs := s.isLt
  have : (f : Nat) = g ∧ (r : Nat) = s := by omega
  simp only [BoardPosition.mk.injEq]
  exact ⟨Fin.ext this.1, Fin.ext this.2⟩

/-- C10: after BoardBitmap.set p v, get p returns v and every other
square keeps its previous value, and the 6-bit square encoding
file*8+rank underlying the bitmap index is injective over the 64
squares. -/
theorem boardBitmap_set_get_spec :
    (∀ (b : BoardBitmap) (p : BoardPosition) (v : Bool), (b.set p v).get p = v) ∧
    (∀ (b : BoardBitmap) (p q : BoardPosition) (v : Bool), q ≠ p →
      (b.set p v).get q = b.get q) ∧
    (∀ (p q : BoardPosition), p.toU6 = q.toU6 → p = q) := by
  refine ⟨?_, ?_, toU6_inj⟩
  · intro b p v
    obtain ⟨⟨d⟩⟩ := b
    cases v
    · show Bitmap64.get ⟨d &&& rotateLeft64 0xfffffffffffffffe p.toU6⟩ p.toU6 = false
      rw [get_eq_testBit _ _ (toU6_lt p), rotl_fe_eq _ (toU6_lt p), Nat.testBit_land,
        mask_bit _ (toU6_lt p) _ (toU6_lt p)]
      simp
    · show Bitmap64.get ⟨d ||| rotateLeft64 1 p.toU6⟩ p.toU6 = true
      rw [get_eq_testBit _ _ (toU6_lt p), rotl_one_eq _ (toU6_lt p), Nat.testBit_lor,
        Nat.testBit_two_pow_self]
      simp
  · intro b p q v hne
    obtain ⟨⟨d⟩⟩ := b
    have hij : q.toU6 ≠ p.toU6 := fun hc => hne (toU6_inj q p hc)
    cases v
    · show Bitmap64.get ⟨d &&& rotateLeft64 0xfffffffffffffffe p.toU6⟩ q.toU6 =
        Bitmap64.get ⟨d⟩ q.toU6
      rw [get_eq_testBit _ _ (toU6_lt q), get_eq_testBit _ _ (toU6_lt q),
        rotl_fe_eq _ (toU6_lt p), Nat.testBit_land, mask_bit _ (toU6_lt p) _ (toU6_lt q)]
      simp [hij]
    · show Bitmap64.get ⟨d ||| rotateLeft64 1 p.toU6⟩ q.toU6 = Bitmap64.get ⟨d⟩ q.toU6
      rw [get_eq_testBit _ _ (toU6_lt q), get_eq_testBit _ _ (toU6_lt q),
        rotl_one_eq _ (toU6_lt p), Nat.testBit_lor,
        Nat.testBit_two_pow_of_ne (fun hc => hij hc.symm)]
      simp

/-- Witness for C10 at concrete inputs. -/
theorem boardBitmap_set_get_witness :
    ((BoardBitmap.all_ones.set ⟨3, 5⟩ false).get ⟨3, 5⟩ = false) ∧
    ((BoardBitmap.all_ones.set ⟨3, 5⟩ false).get ⟨2, 5⟩ = BoardBitmap.all_ones.get ⟨2, 5⟩) ∧
    ((⟨3, 5⟩ : BoardPosition) = ⟨3, 5⟩) :=
  ⟨boardBitmap_set_get_spec.1 _ _ _,
   boardBitmap_set_get_spec.2.1 _ _ _ _ (by decide),
   boardBitmap_set_get_spec.2.2 _ _ (by rfl)⟩

/-- C4: leads_to_check returns a board identical to its input at every
one of the 64 squares, whatever the movement (empty origin and
from = to included) and whatever the check outcome. -/
theorem leads_to_check_restores_board (board : Board) (active_player : PlayerColor)
    (piece_movement : PieceMovement) (q : BoardPosition) :
    ((leads_to_check board active_player piece_movement).2).get_piece q =
      board.get_piece q := by
  unfold leads_to_check
  by_cases hqt : q = piece_movement.to_pos
  · subst hqt
    rw [Board.get_set_same]
  · rw [Board.get_set_ne _ _ _ _ hqt]
    by_cases hqf : q = piece_movement.from_pos
    · subst hqf
      rw [Board.get_set_same]
    · rw [Board.get_set_ne _ _ _ _ hqf, Board.get_set_ne _ _ _ _ hqt,
        Board.get_set_ne _ _ _ _ hqf]

/-- C9: moves::do_move on an empty origin square returns Ok with no
captured piece, no new en-passant target, both castling-rights-removal
flags false, and the board unchanged, even when a promotion type is
supplied. -/
theorem do_move_empty_origin (board : Board) (active_player : PlayerColor)
    (chess_move : ChessMove) (move_context : MoveContext)
    (h : board.get_piece chess_move.piece_movement.from_pos = none) :
    do_move board active_player chess_move move_context =
      .ok (⟨none, none, false, false⟩, board) := by
  unfold do_move
  rw [h]

/-- Witness for C9: an empty board with a promotion type supplied. -/
theorem do_move_empty_origin_witness :
    do_move Board.empty_board .white ⟨⟨⟨0, 0⟩, ⟨1, 1⟩⟩, some .queen⟩ ctxDefault =
      .ok (⟨none, none, false, false⟩, Board.empty_board) :=
  do_move_empty_origin Board.empty_board .white ⟨⟨⟨0, 0⟩, ⟨1, 1⟩⟩, some .queen⟩ ctxDefault rfl

/-- Counterexample for C5 as stated: a black pawn queried with White as
active player yields the all-zero bitmap and not the pawn's own
legal-move set, so the result differs from the own-color query. -/
theorem get_available_moves_guard_counterexample :
    (get_available_moves guardExampleBoard .white ⟨0, 6⟩ ctxDefault).1 ≠
      (get_available_moves guardExampleBoard .black ⟨0, 6⟩ ctxDefault).1 := by
  decide

/-- C5 amended: get_available_moves applies an
is-this-the-active-player's-piece guard and returns the all-zero bitmap
(and the untouched board) for a square holding a piece of the other
color. -/
theorem get_available_moves_turn_guard (board : Board) (active_player : PlayerColor)
    (pos : BoardPosition) (move_context : MoveContext) (piece : Piece)
    (h : board.get_piece pos = some piece) (hne : piece.player ≠ active_player) :
    get_available_moves board active_player pos move_context =
      (BoardBitmap.all_zeros, board) := by
  unfold get_available_moves
  rw [h]
  simp [hne]

/-- Witness for the amended C5 at a concrete black pawn. -/
theorem get_available_moves_turn_guard_witness :
    get_available_moves guardExampleBoard .white ⟨0, 6⟩ ctxDefault =
      (BoardBitmap.all_zeros, guardExampleBoard) :=
  get_available_moves_turn_guard guardExampleBoard .white ⟨0, 6⟩ ctxDefault ⟨.pawn, .black⟩
    rfl (by decide)

/-- C1: the Rook arm of moves::do_move leaves both
castling-rights-removal flags false: moving the queenside rook from a1
and the kingside rook from h1 both report no forfeited right, because
the arm's two expressions are no-ops (the code bug the design notes
flag). -/
theorem do_move_rook_flags_not_set :
    (do_move rookFlagBoard .white ⟨⟨⟨0, 0⟩, ⟨0, 1⟩⟩, none⟩ ctxDefault).map
      (fun r => (r.1.removes_queenside_castling_rights,
        r.1.removes_kingside_castling_rights)) = .ok (false, false) ∧
    (do_move rookFlagBoard .white ⟨⟨⟨7, 0⟩, ⟨7, 1⟩⟩, none⟩ ctxDefault).map
      (fun r => (r.1.removes_queenside_castling_rights,
        r.1.removes_kingside_castling_rights)) = .ok (false, false) := by
  exact ⟨rfl, rfl⟩

/-- C8: on the board parsed from the placement string with two adjacent
kings on an otherwise empty board, both colors are in check. -/
theorem adjacent_kings_both_in_check :
    (Board.from_fen_string "8/8/8/8/8/2Kk4/8/8").map
      (fun b => (is_in_check b .white, is_in_check b .black)) = some (true, true) := by
  decide

/-- C3: a move in the legal set committed through moves::do_move
changes the board only at its implicated squares: origin, destination,
the castling rook squares for a castling king move, and the captured
pawn square for an en-passant capture; every other square keeps its
piece. -/
theorem do_move_frame (board : Board) (active_player : PlayerColor) (chess_move : ChessMove)
    (move_context : MoveContext)
    (_hlegal : ((get_available_moves board active_player chess_move.piece_movement.from_pos
      move_context).1).get chess_move.piece_movement.to_pos = true)
    (result : MoveResult) (board' : Board)
    (hok : do_move board active_player chess_move move_context = .ok (result, board'))
    (q : BoardPosition)
    (hq : q ∉ implicated_squares board active_player chess_move move_context) :
    board'.get_piece q = board.get_piece q := by
  clear _hlegal
  unfold implicated_squares at hq
  unfold do_move at hok
  cases hfrom : board.get_piece chess_move.piece_movement.from_pos with
  | none =>
    rw [hfrom] at hok
    injection hok with hok
    injection hok with _ hb
    subst hb
    rfl
  | some piece =>
    simp only [hfrom] at hq hok
    split at hok
    · exact absurd hok (by simp)
    · cases hpt : piece.piece_type with
      | pawn =>
        simp only [hpt] at hq hok
        cases hpm : pawn_promoted active_player chess_move piece with
        | error e => rw [hpm] at hok; exact absurd hok (by simp)
        | ok piece_after_move =>
          rw [hpm] at hok
          cases hep : move_context.en_passant_target with
          | none =>
            simp only [hep] at hq hok
            simp only [List.mem_cons, List.mem_singleton, not_or] at hq
            injection hok with hok
            injection hok with _ hb
            subst hb
            rw [Board.get_set_ne _ _ _ _ hq.2.1, Board.get_set_ne _ _ _ _ hq.1]
          | some target =>
            simp only [hep] at hq hok
            by_cases hto : chess_move.piece_movement.to_pos = target
            · simp only [hto, eq_self_iff_true, if_true] at hq hok
              cases hepp : get_en_passant_pos active_player target with
              | none =>
                simp only [hepp, if_true] at hq hok
                simp only [List.mem_cons, List.mem_singleton, not_or] at hq
                injection hok with hok
                injection hok with _ hb
                subst hb
                rw [Board.get_set_ne _ _ _ _ hq.2.1, Board.get_set_ne _ _ _ _ hq.1]
              | some en_passant_pos =>
                simp only [hepp, if_true] at hq hok
                simp only [List.mem_cons, List.mem_singleton, not_or] at hq
                injection hok with hok
                injection hok with _ hb
                subst hb
                rw [Board.get_set_ne _ _ _ _ hq.2.1, Board.get_set_ne _ _ _ _ hq.1,
                  Board.get_set_ne _ _ _ _ hq.2.2.1]
            · simp only [if_neg hto] at hq hok
              simp only [List.mem_cons, List.mem_singleton, not_or] at hq
              injection hok with hok
              injection hok with _ hb
              subst hb
              rw [Board.get_set_ne _ _ _ _ hq.2.1, Board.get_set_ne _ _ _ _ hq.1]
      | king =>
        simp only [hpt] at hq hok
        cases hap : active_player with
        | white =>
          simp only [hap] at hq hok
          by_cases hqm : chess_move.piece_movement = (⟨⟨4, 0⟩, ⟨2, 0⟩⟩ : PieceMovement)
          · simp only [hqm, eq_self_iff_true, if_true] at hq hok
            simp only [List.mem_cons, List.mem_singleton, not_or] at hq
            injection hok with hok
            injection hok with _ hb
            subst hb
            rw [Board.get_set_ne _ _ _ _ hq.2.1, Board.get_set_ne _ _ _ _ hq.1,
              Board.get_set_ne _ _ _ _ hq.2.2.2.1, Board.get_set_ne _ _ _ _ hq.2.2.1]
          · simp only [if_neg hqm] at hq hok
            by_cases hkm : chess_move.piece_movement = (⟨⟨4, 0⟩, ⟨6, 0⟩⟩ : PieceMovement)
            · simp only [hkm, eq_self_iff_true, if_true] at hq hok
              simp only [List.mem_cons, List.mem_singleton, not_or] at hq
              injection hok with hok
              injection hok with _ hb
              subst hb
              rw [Board.get_set_ne _ _ _ _ hq.2.1, Board.get_set_ne _ _ _ _ hq.1,
                Board.get_set_ne _ _ _ _ hq.2.2.2.1, Board.get_set_ne _ _ _ _ hq.2.2.1]
            · simp only [if_neg hkm] at hq hok
              simp only [List.mem_cons, List.mem_singleton, not_or] at hq
              injection hok with hok
              injection hok with _ hb
              subst hb
              rw [Board.get_set_ne _ _ _ _ hq.2.1, Board.get_set_ne _ _ _ _ hq.1]
        | black =>
          simp only [hap] at hq hok
          by_cases hqm : chess_move.piece_movement = (⟨⟨4, 7⟩, ⟨2, 7⟩⟩ : PieceMovement)
          · simp only [hqm, eq_self_iff_true, if_true] at hq hok
            simp only [List.mem_cons, List.mem_singleton, not_or] at hq
            injection hok with hok
            injection hok with _ hb
            subst hb
            rw [Board.get_set_ne _ _ _ _ hq.2.1, Board.get_set_ne _ _ _ _ hq.1,
              Board.get_set_ne _ _ _ _ hq.2.2.2.1, Board.get_set_ne _ _ _ _ hq.2.2.1]
          · simp only [if_neg hqm] at hq hok
            by_cases hkm : chess_move.piece_movement = (⟨⟨4, 7⟩, ⟨6, 7⟩⟩ : PieceMovement)
            · simp only [hkm, eq_self_iff_true, if_true] at hq hok
              simp only [List.mem_cons, List.mem_singleton, not_or] at hq
              injection hok with hok
              injection hok with _ hb
              subst hb
              rw [Board.get_set_ne _ _ _ _ hq.2.1, Board.get_set_ne _ _ _ _ hq.1,
                Board.get_set_ne _ _ _ _ hq.2.2.2.1, Board.get_set_ne _ _ _ _ hq.2.2.1]
            · simp only [if_neg hkm] at hq hok
              simp only [List.mem_cons, List.mem_singleton, not_or] at hq
              injection hok with hok
              injection hok with _ hb
              subst hb
              rw [Board.get_set_ne _ _ _ _ hq.2.1, Board.get_set_ne _ _ _ _ hq.1]
      | rook =>
        simp only [hpt] at hq hok
        simp only [List.mem_cons, List.mem_singleton, not_or] at hq
        injection hok with hok
        injection hok with _ hb
        subst hb
        rw [Board.get_set_ne _ _ _ _ hq.2.1, Board.get_set_ne _ _ _ _ hq.1]
      | knight =>
        simp only [hpt] at hq hok
        simp only [List.mem_cons, List.mem_singleton, not_or] at hq
        injection hok with hok
        injection hok with _ hb
        subst hb
        rw [Board.get_set_ne _ _ _ _ hq.2.1, Board.get_set_ne _ _ _ _ hq.1]
      | bishop =>
        simp only [hpt] at hq hok
        simp only [List.mem_cons, List.mem_singleton, not_or] at hq
        injection hok with hok
        injection hok with _ hb
        subst hb
        rw [Board.get_set_ne _ _ _ _ hq.2.1, Board.get_set_ne _ _ _ _ hq.1]
      | queen =>
        simp only [hpt] at hq hok
        simp only [List.mem_cons, List.mem_singleton, not_or] at hq
        injection hok with hok
        injection hok with _ hb
        subst hb
        rw [Board.get_set_ne _ _ _ _ hq.2.1, Board.get_set_ne _ _ _ _ hq.1]

/-- Witness for C3: a legal rook move leaves the black king square
untouched. -/
theorem do_move_frame_witness :
    (exceptGetOk (do_move rookFlagBoard .white rookMoveA ctxDefault)
      moveResultDefault).2.get_piece ⟨4, 7⟩ = rookFlagBoard.get_piece ⟨4, 7⟩ :=
  do_move_frame rookFlagBoard .white rookMoveA ctxDefault (by decide)
    (exceptGetOk (do_move rookFlagBoard .white rookMoveA ctxDefault) moveResultDefault).1
    (exceptGetOk (do_move rookFlagBoard .white rookMoveA ctxDefault) moveResultDefault).2
    (by rfl) ⟨4, 7⟩ (by decide)

set_option maxRecDepth 4000 in
/-- C2: when the state machine's do_move succeeds, the active player is
flipped, the legal-move cache is the full recomputation for the new
active player on the post-move board (under the updated castling rights
and en-passant target), and termination is evaluated from the cache:
all 64 cached bitmaps zero gives Checkmate (a win for the player who
just moved) when the new active player is in check and Stalemate
otherwise, while any nonzero bitmap leaves the status Normal. -/
theorem chess_do_move_spec (g : ChessGame) (chess_move : ChessMove) (g' : ChessGame)
    (hok : g.do_move chess_move = .ok g') :
    g'.active_player = g.active_player.other_player ∧
    (∃ move_result board1,
      do_move g.board g.active_player chess_move g.move_context = .ok (move_result, board1) ∧
      g'.available_moves = (recalculate_available_moves board1 g'.active_player
        ⟨(match g'.active_player with
           | .white => g'.castling_rights.1
           | .black => g'.castling_rights.2),
         move_result.new_en_passant_target⟩ g.available_moves).1) ∧
    ((fileMajorSquares.any fun pos =>
        ! (g'.available_moves pos.file pos.rank).is_all_zeros) = true →
      g'.game_status = .normal) ∧
    ((fileMajorSquares.any fun pos =>
        ! (g'.available_moves pos.file pos.rank).is_all_zeros) = false →
      g'.game_status = (if is_in_check g'.board g'.active_player then
        GameStatus.win g.active_player .checkmate else GameStatus.draw .stalemate)) := by
  unfold ChessGame.do_move at hok
  have main : ∀ (gs : GameStatus),
      (match
          do_move g.board g.active_player chess_move
            ({ game_status := gs, active_player := g.active_player, board := g.board,
               available_moves := g.available_moves, castling_rights := g.castling_rights,
               en_passant_target := g.en_passant_target } : ChessGame).move_context with
        | Except.error e => Except.error e
        | Except.ok (move_result, board) =>
          Except.ok
            (({ game_status := gs, active_player := g.active_player, board := g.board,
                available_moves := g.available_moves, castling_rights := g.castling_rights,
                en_passant_target := g.en_passant_target } : ChessGame).after_move
              move_result board)) = Except.ok g' →
      g'.active_player = g.active_player.other_player ∧
      (∃ move_result board1,
        do_move g.board g.active_player chess_move g.move_context = .ok (move_result, board1) ∧
        g'.available_moves = (recalculate_available_moves board1 g'.active_player
          ⟨(match g'.active_player with
             | .white => g'.castling_rights.1
             | .black => g'.castling_rights.2),
           move_result.new_en_passant_target⟩ g.available_moves).1) ∧
      ((fileMajorSquares.any fun pos =>
          ! (g'.available_moves pos.file pos.rank).is_all_zeros) = true →
        g'.game_status = gs) ∧
      ((fileMajorSquares.any fun pos =>
          ! (g'.available_moves pos.file pos.rank).is_all_zeros) = false →
        g'.game_status = (if is_in_check g'.board g'.active_player then
          GameStatus.win g.active_player .checkmate else GameStatus.draw .stalemate)) := by
    intro gs hmatch
    split at hmatch
    · exact absurd hmatch (by simp)
    · rename_i move_result board1 heq
      injection hmatch with hmatch
      subst hmatch
      refine ⟨rfl, ⟨move_result, board1, heq, rfl⟩, ?_, ?_⟩
      · intro h
        simp only [ChessGame.after_move] at h ⊢
        rw [if_pos h]
      · intro h
        simp only [ChessGame.after_move] at h ⊢
        rw [if_neg (by simp [h]), PlayerColor.other_other]
  cases hst : g.game_status with
  | draw r => rw [hst] at hok; exact absurd hok (by simp)
  | win p r => rw [hst] at hok; exact absurd hok (by simp)
  | notYetStarted =>
    rw [hst] at hok
    simp only [] at hok
    split at hok
    · exact absurd hok (by simp)
    · exact main .normal hok
  | normal =>
    rw [hst] at hok
    simp only [] at hok
    split at hok
    · exact absurd hok (by simp)
    · exact main .normal hok

/-- Witness for C2: the two-kings game after the king move a1 to b1. -/
theorem chess_do_move_witness :
    c2After.active_player = c2Game.active_player.other_player ∧
    (∃ move_result board1,
      do_move c2Game.board c2Game.active_player c2Move c2Game.move_context =
        .ok (move_result, board1) ∧
      c2After.available_moves = (recalculate_available_moves board1 c2After.active_player
        ⟨(match c2After.active_player with
           | .white => c2After.castling_rights.1
           | .black => c2After.castling_rights.2),
         move_result.new_en_passant_target⟩ c2Game.available_moves).1) ∧
    ((fileMajorSquares.any fun pos =>
        ! (c2After.available_moves pos.file pos.rank).is_all_zeros) = true →
      c2After.game_status = .normal) ∧
    ((fileMajorSquares.any fun pos =>
        ! (c2After.available_moves pos.file pos.rank).is_all_zeros) = false →
      c2After.game_status = (if is_in_check c2After.board c2After.active_player then
        GameStatus.win c2Game.active_player .checkmate else GameStatus.draw .stalemate)) :=
  chess_do_move_spec c2Game c2Move c2After (by rfl)

theorem from_char_slash : Piece.from_char '/' = none := by decide

theorem char_to_digit_slash : char_to_digit '/' = none := by decide

/-- Consuming one non-final well-formed rank segment followed by its
separator advances the parse loop one rank, performing the segment's
writes. -/
theorem loop_seg_step (seg : List Char) : ∀ (rest : List Char) (b : Board) (fl rk : Nat),
    seg_chars_ok seg → sumFiles seg + fl = 8 → rk ≤ 6 →
    from_fen_loop (seg ++ '/' :: rest) b fl rk =
      from_fen_loop rest (place_seg_from seg b fl rk) 0 (rk + 1) := by
  induction seg with
  | nil =>
    intro rest b fl rk _ hsum hrk
    have hfl : fl = 8 := by simpa [sumFiles] using hsum
    subst hfl
    simp [from_fen_loop, from_char_slash, char_to_digit_slash, place_seg_from, hrk,
      Nat.not_lt.mpr hrk]
  | cons c cs ih =>
    intro rest b fl rk hok hsum hrk
    have hc := hok c (by simp)
    have hcs : seg_chars_ok cs := fun x hx => hok x (by simp [hx])
    cases hpc : Piece.from_char c with
    | some piece =>
      have hsum' : sumFiles cs + (fl + 1) = 8 := by
        simp only [sumFiles, hpc] at hsum
        omega
      have hfl : ¬ (8 ≤ fl ∨ 8 ≤ rk) := by omega
      simp only [List.cons_append, from_fen_loop, hpc, dif_neg hfl, place_seg_from]
      exact ih rest _ (fl + 1) rk hcs hsum' hrk
    | none =>
      cases hdg : char_to_digit c with
      | some d =>
        have hsum' : sumFiles cs + (fl + d) = 8 := by
          simp only [sumFiles, hpc, hdg, Option.getD] at hsum
          omega
        have hfl : ¬ (8 < d + fl) := by omega
        simp only [List.cons_append, from_fen_loop, hpc, hdg, if_neg hfl, place_seg_from]
        exact ih rest b (fl + d) rk hcs hsum' hrk
      | none =>
        rcases hc with hc | hc
        · rw [hpc] at hc; simp at hc
        · rw [hdg] at hc; simp at hc

/-- Consuming the final well-formed rank segment on rank 7 finishes the
parse with the segment's writes applied. -/
theorem loop_seg_last (seg : List Char) : ∀ (b : Board) (fl : Nat),
    seg_chars_ok seg → sumFiles seg + fl = 8 →
    from_fen_loop seg b fl 7 = some (place_seg_from seg b fl 7) := by
  induction seg with
  | nil =>
    intro b fl _ hsum
    have hfl : fl = 8 := by simpa [sumFiles] using hsum
    subst hfl
    simp [from_fen_loop, place_seg_from]
  | cons c cs ih =>
    intro b fl hok hsum
    have hc := hok c (by simp)
    have hcs : seg_chars_ok cs := fun x hx => hok x (by simp [hx])
    cases hpc : Piece.from_char c with
    | some piece =>
      have hsum' : sumFiles cs + (fl + 1) = 8 := by
        simp only [sumFiles, hpc] at hsum
        omega
      have hfl : ¬ (8 ≤ fl ∨ 8 ≤ (7 : Nat)) := by omega
      simp only [from_fen_loop, hpc, dif_neg hfl, place_seg_from]
      exact ih _ (fl + 1) hcs hsum'
    | none =>
      cases hdg : char_to_digit c with
      | some d =>
        have hsum' : sumFiles cs + (fl + d) = 8 := by
          simp only [sumFiles, hpc, hdg, Option.getD] at hsum
          omega
        have hfl : ¬ (8 < d + fl) := by omega
        simp only [from_fen_loop, hpc, hdg, if_neg hfl, place_seg_from]
        exact ih b (fl + d) hcs hsum'
      | none =>
        rcases hc with hc | hc
        · rw [hpc] at hc; simp at hc
        · rw [hdg] at hc; simp at hc

/-- The squares a single segment placement writes lie on its rank at
files from the starting file onward, holding the segment's pieces. -/
theorem place_seg_get_eq (seg : List Char) : ∀ (b : Board) (fl rk : Nat) (q : BoardPosition),
    rk < 8 →
    (place_seg_from seg b fl rk).get_piece q =
      if (q.rank : Nat) = rk ∧ fl ≤ (q.file : Nat) then
        (match seg_piece_at seg fl (q.file : Nat) with
         | some p => some p
         | none => b.get_piece q)
      else b.get_piece q := by
  induction seg with
  | nil =>
    intro b fl rk q hrk
    simp only [place_seg_from, seg_piece_at]
    split <;> rfl
  | cons c cs ih =>
    intro b fl rk q hrk
    have hf8 : (q.file : Nat) < 8 := q.file.isLt
    cases hpc : Piece.from_char c with
    | some piece =>
      simp only [place_seg_from, seg_piece_at, hpc]
      by_cases hfl8 : 8 ≤ fl ∨ 8 ≤ rk
      · rcases hfl8 with hfl8 | hfl8
        · rw [dif_pos (Or.inl hfl8)]
          have : ¬ ((q.rank : Nat) = rk ∧ fl ≤ (q.file : Nat)) := by omega
          rw [if_neg this]
        · omega
      · rw [dif_neg hfl8]
        push_neg at hfl8
        rw [ih _ (fl + 1) rk q hrk]
        by_cases hrq : (q.rank : Nat) = rk
        · by_cases hff : (q.file : Nat) = fl
          · have hpos : q = ⟨⟨fl, by omega⟩, ⟨rk, by omega⟩⟩ := by
              obtain ⟨qf, qr⟩ := q
              simp only [BoardPosition.mk.injEq]
              exact ⟨Fin.ext hff, Fin.ext hrq⟩
            have hc1 : ¬ ((q.rank : Nat) = rk ∧ fl + 1 ≤ (q.file : Nat)) := by omega
            rw [if_neg hc1, if_pos ⟨hrq, by omega⟩, if_pos hff, hpos, Board.get_set_same]
          · have hqne : q ≠ ⟨⟨fl, by omega⟩, ⟨rk, by omega⟩⟩ := by
              intro hc
              apply hff
              rw [hc]
            rw [if_neg hff]
            by_cases hlt : fl + 1 ≤ (q.file : Nat)
            · rw [if_pos ⟨hrq, hlt⟩, if_pos ⟨hrq, by omega⟩]
              cases seg_piece_at cs (fl + 1) (q.file : Nat) with
              | some p => rfl
              | none => exact Board.get_set_ne _ _ _ _ hqne
            · rw [if_neg (by omega), if_neg (by omega)]
              exact Board.get_set_ne _ _ _ _ hqne
        · have hqne : q ≠ ⟨⟨fl, by omega⟩, ⟨rk, by omega⟩⟩ := by
            intro hc
            apply hrq
            rw [hc]
          rw [if_neg (by omega), if_neg (by omega)]
          exact Board.get_set_ne _ _ _ _ hqne
    | none =>
      cases hdg : char_to_digit c with
      | some d =>
        simp only [place_seg_from, seg_piece_at, hpc, hdg]
        rw [ih b (fl + d) rk q hrk]
        by_cases hrq : (q.rank : Nat) = rk
        · by_cases hlo : fl ≤ (q.file : Nat)
          · by_cases hcov : (q.file : Nat) < fl + d
            · rw [if_neg (show ¬ ((q.rank : Nat) = rk ∧ fl + d ≤ (q.file : Nat)) by omega),
                if_pos (show (q.rank : Nat) = rk ∧ fl ≤ (q.file : Nat) from ⟨hrq, hlo⟩),
                if_pos (show fl ≤ (q.file : Nat) ∧ (q.file : Nat) < fl + d from ⟨hlo, hcov⟩)]
            · rw [if_pos (show (q.rank : Nat) = rk ∧ fl + d ≤ (q.file : Nat) from
                  ⟨hrq, by omega⟩),
                if_pos (show (q.rank : Nat) = rk ∧ fl ≤ (q.file : Nat) from ⟨hrq, hlo⟩),
                if_neg (show ¬ (fl ≤ (q.file : Nat) ∧ (q.file : Nat) < fl + d) by omega)]
          · rw [if_neg (show ¬ ((q.rank : Nat) = rk ∧ fl + d ≤ (q.file : Nat)) by omega),
              if_neg (show ¬ ((q.rank : Nat) = rk ∧ fl ≤ (q.file : Nat)) by omega)]
        · rw [if_neg (show ¬ ((q.rank : Nat) = rk ∧ fl + d ≤ (q.file : Nat)) by omega),
            if_neg (show ¬ ((q.rank : Nat) = rk ∧ fl ≤ (q.file : Nat)) by omega)]
      | none =>
        simp only [place_seg_from, seg_piece_at, hpc, hdg]
        exact ih b fl rk q hrk

/-- The squares a run of segment placements writes, rank by rank. -/
theorem place_ranks_get (l : List (List Char)) : ∀ (b : Board) (rk0 : Nat) (q : BoardPosition),
    rk0 + l.length ≤ 8 →
    (place_ranks l b rk0).get_piece q =
      if rk0 ≤ (q.rank : Nat) ∧ (q.rank : Nat) < rk0 + l.length then
        (match seg_piece_at (l.getD ((q.rank : Nat) - rk0) []) 0 (q.file : Nat) with
         | some p => some p
         | none => b.get_piece q)
      else b.get_piece q := by
  induction l with
  | nil =>
    intro b rk0 q hle
    simp only [place_ranks, List.length_nil]
    rw [if_neg (by omega)]
  | cons seg rest ih =>
    intro b rk0 q hle
    simp only [place_ranks, List.length_cons] at hle ⊢
    rw [ih _ (rk0 + 1) q (by omega),
      place_seg_get_eq seg b 0 rk0 q (by omega)]
    by_cases hr0 : (q.rank : Nat) = rk0
    · rw [if_neg (by omega), if_pos ⟨hr0, Nat.zero_le _⟩,
        if_pos (show rk0 ≤ (q.rank : Nat) ∧ (q.rank : Nat) < rk0 + (rest.length + 1) by omega)]
      have hidx : (q.rank : Nat) - rk0 = 0 := by omega
      rw [hidx]
      rfl
    · by_cases hin : rk0 + 1 ≤ (q.rank : Nat) ∧ (q.rank : Nat) < rk0 + 1 + rest.length
      · rw [if_pos hin, if_pos (show rk0 ≤ (q.rank : Nat) ∧
            (q.rank : Nat) < rk0 + (rest.length + 1) by omega)]
        have hidx : (q.rank : Nat) - rk0 = ((q.rank : Nat) - (rk0 + 1)) + 1 := by omega
        rw [hidx, List.getD_cons_succ]
        cases seg_piece_at (rest.getD ((q.rank : Nat) - (rk0 + 1)) []) 0 (q.file : Nat) with
        | some p => rfl
        | none => rw [if_neg (by omega)]
      · rw [if_neg hin, if_neg (by omega),
          if_neg (show ¬ (rk0 ≤ (q.rank : Nat) ∧
            (q.rank : Nat) < rk0 + (rest.length + 1)) by omega)]

/-- C6 amended: for eight well-formed rank segments joined by the
separator, from_fen_string succeeds and assigns the segments to ranks
bottom-up: the first segment of the string populates rank index 0
(rank 1) and the last populates rank index 7 (rank 8), each square of
rank r holding the piece its segment denotes for that file. -/
theorem fen_ranks_bottom_up (s0 s1 s2 s3 s4 s5 s6 s7 : List Char)
    (h0 : fen_seg_wf s0) (h1 : fen_seg_wf s1) (h2 : fen_seg_wf s2) (h3 : fen_seg_wf s3)
    (h4 : fen_seg_wf s4) (h5 : fen_seg_wf s5) (h6 : fen_seg_wf s6) (h7 : fen_seg_wf s7) :
    Board.from_fen_string ⟨joinFenSegs [s0, s1, s2, s3, s4, s5, s6, s7]⟩ =
      some (place_ranks [s0, s1, s2, s3, s4, s5, s6, s7] Board.empty_board 0) ∧
    ∀ q : BoardPosition,
      (place_ranks [s0, s1, s2, s3, s4, s5, s6, s7] Board.empty_board 0).get_piece q =
        seg_piece_at ([s0, s1, s2, s3, s4, s5, s6, s7].getD (q.rank : Nat) [])
          0 (q.file : Nat) := by
  constructor
  · show from_fen_loop (joinFenSegs [s0, s1, s2, s3, s4, s5, s6, s7]) Board.empty_board 0 0 = _
    simp only [joinFenSegs]
    rw [loop_seg_step s0 _ _ 0 0 h0.1 (by simpa using h0.2) (by omega),
      loop_seg_step s1 _ _ 0 1 h1.1 (by simpa using h1.2) (by omega),
      loop_seg_step s2 _ _ 0 2 h2.1 (by simpa using h2.2) (by omega),
      loop_seg_step s3 _ _ 0 3 h3.1 (by simpa using h3.2) (by omega),
      loop_seg_step s4 _ _ 0 4 h4.1 (by simpa using h4.2) (by omega),
      loop_seg_step s5 _ _ 0 5 h5.1 (by simpa using h5.2) (by omega),
      loop_seg_step s6 _ _ 0 6 h6.1 (by simpa using h6.2) (by omega),
      loop_seg_last s7 _ 0 h7.1 (by simpa using h7.2)]
    rfl
  · intro q
    rw [place_ranks_get _ _ 0 q (by simp)]
    have hrk : (q.rank : Nat) < 8 := q.rank.isLt
    rw [if_pos (show 0 ≤ (q.rank : Nat) ∧ (q.rank : Nat) <
        0 + [s0, s1, s2, s3, s4, s5, s6, s7].length by simp)]
    rw [Nat.sub_zero]
    cases seg_piece_at ([s0, s1, s2, s3, s4, s5, s6, s7].getD (q.rank : Nat) [])
        0 (q.file : Nat) with
    | some p => rfl
    | none => rfl

/-- Witness for the amended C6 with concrete segments. -/
theorem fen_ranks_bottom_up_witness :
    Board.from_fen_string
        ⟨joinFenSegs [['K', '7'], ['8'], ['8'], ['8'], ['8'], ['8'], ['8'], ['8']]⟩ =
      some (place_ranks [['K', '7'], ['8'], ['8'], ['8'], ['8'], ['8'], ['8'], ['8']]
        Board.empty_board 0) ∧
    ∀ q : BoardPosition,
      (place_ranks [['K', '7'], ['8'], ['8'], ['8'], ['8'], ['8'], ['8'], ['8']]
        Board.empty_board 0).get_piece q =
        seg_piece_at ([['K', '7'], ['8'], ['8'], ['8'], ['8'], ['8'], ['8'], ['8']].getD
          (q.rank : Nat) []) 0 (q.file : Nat) :=
  fen_ranks_bottom_up _ _ _ _ _ _ _ _ (by decide) (by decide) (by decide) (by decide)
    (by decide) (by decide) (by decide) (by decide)

/-- Counterexample for C6 as stated: the accepted placement string
whose first segment starts with a white king puts that king on rank
index 0, not on rank index 7, which the first segment would populate
were ranks assigned top-down. -/
theorem fen_first_segment_fills_rank_index_zero :
    (Board.from_fen_string "K7/8/8/8/8/8/8/8").map
      (fun b => (b.get_piece ⟨0, 0⟩, b.get_piece ⟨0, 7⟩)) =
      some (some ⟨.king, .white⟩, none) := by
  rfl

theorem from_fen_loop_sound (cs : List Char) : ∀ (b : Board) (fl rk : Nat) (b' : Board),
    from_fen_loop cs b fl rk = some b' →
    (∀ c ∈ cs, fen_char_ok c = true) ∧
    sumFiles (segsOf cs).1 + fl = 8 ∧
    (∀ seg ∈ (segsOf cs).2, sumFiles seg = 8) ∧
    (segsOf cs).2.length + rk = 7 := by
  induction cs with
  | nil =>
    intro b fl rk b' h
    simp only [from_fen_loop] at h
    split at h
    · rename_i hc
      exact ⟨by simp, by simp [segsOf, sumFiles, hc.1], by simp [segsOf],
        by simp [segsOf, hc.2]⟩
    · cases h
  | cons c cs ih =>
    intro b fl rk b' h
    simp only [from_fen_loop] at h
    cases hpc : Piece.from_char c with
    | some piece =>
      simp only [hpc] at h
      by_cases hguard : 8 ≤ fl ∨ 8 ≤ rk
      · rw [dif_pos hguard] at h
        cases h
      · rw [dif_neg hguard] at h
        push_neg at hguard
        obtain ⟨A, B, C, D⟩ := ih _ _ _ _ h
        have hslash : ¬ (c = '/') := by
          intro he
          rw [he, from_char_slash] at hpc
          cases hpc
        refine ⟨?_, ?_, ?_, ?_⟩
        · intro x hx
          rcases List.mem_cons.mp hx with he | ht
          · subst he
            simp [fen_char_ok, hpc]
          · exact A x ht
        · simp only [segsOf, if_neg hslash, sumFiles, hpc]
          omega
        · simpa only [segsOf, if_neg hslash] using C
        · simpa only [segsOf, if_neg hslash] using D
    | none =>
      simp only [hpc] at h
      cases hdg : char_to_digit c with
      | some d =>
        simp only [hdg] at h
        by_cases hguard : 8 < d + fl
        · rw [if_pos hguard] at h
          cases h
        · rw [if_neg hguard] at h
          push_neg at hguard
          obtain ⟨A, B, C, D⟩ := ih _ _ _ _ h
          have hslash : ¬ (c = '/') := by
            intro he
            rw [he, char_to_digit_slash] at hdg
            cases hdg
          refine ⟨?_, ?_, ?_, ?_⟩
          · intro x hx
            rcases List.mem_cons.mp hx with he | ht
            · subst he
              have hd8 : d ≤ 8 := by omega
              simp [fen_char_ok, hpc, hdg, hd8]
            · exact A x ht
          · simp only [segsOf, if_neg hslash, sumFiles, hpc, hdg, Option.getD]
            omega
          · simpa only [segsOf, if_neg hslash] using C
          · simpa only [segsOf, if_neg hslash] using D
      | none =>
        simp only [hdg] at h
        by_cases hslash : c = '/'
        · rw [if_pos hslash] at h
          by_cases hguard : fl ≠ 8 ∨ 6 < rk
          · rw [if_pos hguard] at h
            cases h
          · rw [if_neg hguard] at h
            push_neg at hguard
            obtain ⟨A, B, C, D⟩ := ih _ _ _ _ h
            refine ⟨?_, ?_, ?_, ?_⟩
            · intro x hx
              rcases List.mem_cons.mp hx with he | ht
              · subst he
                simp [fen_char_ok, hslash]
              · exact A x ht
            · simp only [segsOf, if_pos hslash, sumFiles]
              omega
            · intro seg hseg
              simp only [segsOf, if_pos hslash] at hseg
              rcases List.mem_cons.mp hseg with he | ht
              · subst he
                omega
              · exact C seg ht
            · simp only [segsOf, if_pos hslash, List.length_cons]
              omega
        · rw [if_neg hslash] at h
          cases h

/-- C7 amended: from_fen_string returns None, never a partial board,
for every input that is malformed in one of three ways: a character
outside the accepted alphabet of piece letters, digits 0 through 8
and the separator (the digit 0, which this parser accepts as zero
empty squares, is the one amendment to the claimed alphabet), a rank
segment whose file count differs from 8, or more than eight rank
segments. -/
theorem from_fen_string_rejects_malformed (s : String)
    (hbad : (∃ c ∈ s.data, fen_char_ok c = false) ∨
            (∃ seg ∈ (segsOf s.data).1 :: (segsOf s.data).2, sumFiles seg ≠ 8) ∨
            8 ≤ (segsOf s.data).2.length) :
    Board.from_fen_string s = none := by
  cases hres : Board.from_fen_string s with
  | none => rfl
  | some b' =>
    obtain ⟨A, B, C, D⟩ := from_fen_loop_sound s.data Board.empty_board 0 0 b' hres
    exfalso
    rcases hbad with ⟨c, hc, hbadc⟩ | ⟨seg, hseg, hbads⟩ | hlen
    · rw [A c hc] at hbadc
      cases hbadc
    · rcases List.mem_cons.mp hseg with he | ht
      · apply hbads
        subst he
        omega
      · exact hbads (C seg ht)
    · omega

/-- Witness for the amended C7: an input with an invalid letter. -/
theorem from_fen_string_rejects_malformed_witness :
    Board.from_fen_string "z7/8/8/8/8/8/8/8" = none :=
  from_fen_string_rejects_malformed "z7/8/8/8/8/8/8/8" (by decide)

/-- Counterexample for C7 as stated: the character 0 is not a piece
letter, not a digit 1 through 8 and not the separator, yet an input
containing it parses successfully (the parser accepts 0 as zero empty
squares). -/
theorem fen_zero_digit_accepted :
    (Board.from_fen_string "08/8/8/8/8/8/8/8").isSome = true := by
  rfl

end LebenChess
